import Mathlib

/-!
Verification development for the Wordcab Python SDK repository.

Part 1 embeds the AWS-Transcribe reformatting notebook
(notebooks/reformat_aws_asr.ipynb) as executable Lean definitions and
proves its functional behaviour.

Part 2 models the documented client contract (docs/usage.md,
docs/reference.md, the usage notebook and the design-level description of
the job lifecycle); the SDK implementation itself is not part of the
provided sources, so those definitions are modelled from the spec.

Definitions come first, the theorems follow.
-/

namespace Asr

/-- One entry of the AWS ASR `items` array: its `speaker_label` and the
content of its first alternative (`item["alternatives"][0]["content"]`). -/
structure Item where
  speaker_label : String
  content : String
  deriving DecidableEq

/-- The parts of the AWS ASR JSON document that the notebook reads:
`speaker_labels.speakers`, the `speaker_label` of each entry of
`speaker_labels.segments`, and the `items` array. -/
structure AsrData where
  n_speakers : Nat
  segment_labels : List String
  items : List Item
  deriving DecidableEq

/-- The distinct segment speaker labels, from
`list(set([label["speaker_label"] for label in data["speaker_labels"]["segments"]]))`. -/
def speakerLabels (d : AsrData) : List String :=
  d.segment_labels.dedup

/-- The dictionary `speaker_map = {speaker: chr(ord("A") + i) for i, speaker
in enumerate(speaker_labels)}`, as a lookup: `none` models a `KeyError` on a
label absent from the map. -/
def speakerMap (d : AsrData) (s : String) : Option String :=
  ((speakerLabels d).indexOf? s).map (fun i => String.mk [Char.ofNat (65 + i)])

/-- The loop state of the reformatting cell: the current `speaker`
(`none` models Python's `None`), the accumulated `utterance`, and the
contents of `results.txt` as a list of written lines. -/
structure RState where
  speaker : Option String
  utterance : String
  output : List String
  deriving DecidableEq

/-- One iteration of the `for item in data["items"]` loop. The first
branch is Python's `if not speaker:`, which is taken both when `speaker`
is `None` and when it is the empty string; the write branch evaluates
`speaker_map[speaker]`, which raises `KeyError` (modelled as `.error`)
before anything is written when the label is absent. -/
def stepE (d : AsrData) (st : RState) (it : Item) : Except String RState :=
  match st.speaker with
  | none => .ok ⟨some it.speaker_label, it.content, st.output⟩
  | some s =>
    if s = "" then
      .ok ⟨some it.speaker_label, it.content, st.output⟩
    else if s = it.speaker_label then
      .ok ⟨some s, st.utterance ++ " " ++ it.content, st.output⟩
    else
      match speakerMap d s with
      | none => .error "KeyError"
      | some letter =>
        .ok ⟨some it.speaker_label, it.content,
             st.output ++ ["SPEAKER " ++ letter ++ ": " ++ st.utterance]⟩

/-- Run the loop over the remaining items; on an exception the state at
the point of failure is kept (the file holds what was written so far). -/
def execItems (d : AsrData) : RState → List Item → RState × Option String
  | st, [] => (st, none)
  | st, it :: its =>
    match stepE d st it with
    | .ok st' => execItems d st' its
    | .error e => (st, some e)

/-- The whole cell: first `assert len(speaker_labels) == n_speakers`,
then the loop. `initFile` is whatever `results.txt` held before the run
(every write opens the file in append mode). The result is the final
state, whose `output` is the final file contents, together with the
uncaught exception, if any. -/
def runScript (d : AsrData) (initFile : List String) : RState × Option String :=
  if (speakerLabels d).length = d.n_speakers then
    execItems d ⟨none, "", initFile⟩ d.items
  else
    (⟨none, "", initFile⟩, some "AssertionError")

/-- The script run on an empty `results.txt`, viewed as a fallible
computation returning the lines it wrote. -/
def runReformat (d : AsrData) : Except String (List String) :=
  match runScript d [] with
  | (st, none) => .ok st.output
  | (_, some e) => .error e

/-- Maximal runs of consecutive items sharing a speaker label, starting
from an open run with speaker `s` and accumulated utterance `u`; each run
is returned as the pair of its speaker label and its contents joined by
single spaces. -/
def joinRun (s u : String) : List Item → List (String × String)
  | [] => [(s, u)]
  | it :: its =>
    if s = it.speaker_label then
      joinRun s (u ++ " " ++ it.content) its
    else
      (s, u) :: joinRun it.speaker_label it.content its

/-- All maximal runs of consecutive items sharing a speaker label. -/
def speakerRuns : List Item → List (String × String)
  | [] => []
  | it :: its => joinRun it.speaker_label it.content its

/-- The speaker and joined utterance of the final (still open) run. -/
def lastRun (s u : String) : List Item → String × String
  | [] => (s, u)
  | it :: its =>
    if s = it.speaker_label then
      lastRun s (u ++ " " ++ it.content) its
    else
      lastRun it.speaker_label it.content its

/-- The line written for one run: `SPEAKER <letter>: <utterance>`. -/
def runLine (d : AsrData) (p : String × String) : String :=
  "SPEAKER " ++ ((speakerMap d p.1).getD "") ++ ": " ++ p.2

/-- The output the claim asserts the script writes: one line per maximal
run, in order. -/
def claimedOutput (d : AsrData) : List String :=
  (speakerRuns d.items).map (runLine d)

/-- A one-run input on which the claimed and the actual output differ. -/
def cexData : AsrData :=
  ⟨1, ["spk_0"], [⟨"spk_0", "Hello"⟩]⟩

/-- A two-run input used to instantiate the amended claim. -/
def w1Data : AsrData :=
  ⟨2, ["spk_0", "spk_1"],
   [⟨"spk_0", "Hello"⟩, ⟨"spk_0", "there"⟩, ⟨"spk_1", "Hi"⟩]⟩

/-- A well-formed input used to instantiate the safety claim. -/
def w9Data : AsrData :=
  ⟨2, ["spk_0", "spk_1", "spk_0"],
   [⟨"spk_1", "Good"⟩, ⟨"spk_1", "morning"⟩, ⟨"spk_0", "Hey"⟩]⟩

end Asr

namespace Wordcab

/-- Modelled from the spec: the job lifecycle states
`queued → processing → complete`, with `error` reachable from `queued`
or `processing`. The SDK implementation is not among the provided
sources; only its documentation is. -/
inductive JobStatus
  | queued
  | processing
  | complete
  | error
  deriving DecidableEq, Fintype

/-- Modelled from the spec: the allowed status transitions — `queued` to
`processing`, `processing` to `complete`, and `queued` or `processing`
to `error`; no other transition occurs. -/
def statusStep : JobStatus → JobStatus → Bool
  | .queued, .processing => true
  | .processing, .complete => true
  | .queued, .error => true
  | .processing, .error => true
  | _, _ => false

/-- Modelled from the spec: a status is observable after a sequence of
server-driven transitions, i.e. the reflexive-transitive closure of
`statusStep`. -/
def StatusReaches : JobStatus → JobStatus → Prop :=
  Relation.ReflTransGen (fun a b => statusStep a b = true)

/-- Modelled from the spec: the credentials the `login` command stores —
an email and an API token. -/
structure Credentials where
  email : String
  api_key : String
  deriving DecidableEq

/-- Modelled from the spec: a Client holds the credentials and issues
every documented operation against the remote API. -/
structure Client where
  credentials : Credentials
  deriving DecidableEq

/-- Modelled from the spec: the error taxonomy — authentication failure,
not-found, and generic request failure — surfaced to the caller as
distinct failures. -/
inductive ApiError
  | notFound
  | authFailure
  | requestFailure
  deriving DecidableEq

/-- Modelled from the spec: the Source variants — an audio file, a
generic file, or an in-memory transcript object. -/
inductive Source
  | audio (filepath : String)
  | generic (filepath : String)
  | inMemory (transcript : List String)
  deriving DecidableEq

/-- Modelled from the spec: configuration for a submission — summary
type, length(s), tags, pipeline options. -/
structure JobSettings where
  display_name : String
  summary_type : String
  summary_lens : List Nat
  tags : List String
  pipeline : String
  deriving DecidableEq

/-- Modelled from the spec: the Job variants, summarize or extract. -/
inductive JobKind
  | summarize
  | extract
  deriving DecidableEq

/-- Modelled from the spec: a Job handle with its identifier and
lifecycle status. -/
structure Job where
  job_name : String
  job_status : JobStatus
  kind : JobKind
  deriving DecidableEq

/-- Modelled from the spec: a UTC calendar timestamp. -/
structure DateTime where
  year : Nat
  month : Nat
  day : Nat
  hour : Nat
  minute : Nat
  second : Nat
  deriving DecidableEq

/-- Modelled from the spec: a timestamp is valid when every field is in
range (a four-digit year, months 1–12, days 1–31, and time fields below
24/60/60). -/
def DateTime.valid (t : DateTime) : Bool :=
  decide (1 ≤ t.year) && decide (t.year ≤ 9999) &&
  decide (1 ≤ t.month) && decide (t.month ≤ 12) &&
  decide (1 ≤ t.day) && decide (t.day ≤ 31) &&
  decide (t.hour ≤ 23) && decide (t.minute ≤ 59) && decide (t.second ≤ 59)

/-- Modelled from the spec: zero-padding to two digits. -/
def pad2 (n : Nat) : String :=
  if n < 10 then "0" ++ toString n else toString n

/-- Modelled from the spec: zero-padding to four digits. -/
def pad4 (n : Nat) : String :=
  if n < 10 then "000" ++ toString n
  else if n < 100 then "00" ++ toString n
  else if n < 1000 then "0" ++ toString n
  else toString n

/-- Modelled from the spec: rendering of a timestamp in the observed UTC
ISO-8601 form, e.g. `2022-10-17T17:42:06Z`. -/
def DateTime.toIso (t : DateTime) : String :=
  pad4 t.year ++ "-" ++ pad2 t.month ++ "-" ++ pad2 t.day ++ "T" ++
  pad2 t.hour ++ ":" ++ pad2 t.minute ++ ":" ++ pad2 t.second ++ "Z"

/-- Modelled from the spec: a string is a valid UTC ISO-8601 timestamp
when it is the rendering of some valid timestamp. -/
def IsIso8601UTC (s : String) : Prop :=
  ∃ t : DateTime, t.valid = true ∧ s = t.toIso

/-- Modelled from the spec: lexicographic comparison of character lists by
code point, the order in which rendered ISO-8601 UTC timestamps compare
chronologically. -/
def charListLe : List Char → List Char → Bool
  | [], _ => true
  | _ :: _, [] => false
  | a :: as, b :: bs =>
    if a.toNat < b.toNat then true
    else if b.toNat < a.toNat then false
    else charListLe as bs

/-- Modelled from the spec: lexicographic comparison of strings. -/
def strLe (a b : String) : Bool :=
  charListLe a.data b.data

/-- Modelled from the spec: the smaller of two strings. -/
def strMin (a b : String) : String :=
  if strLe a b then a else b

/-- Modelled from the spec: the larger of two strings. -/
def strMax (a b : String) : String :=
  if strLe a b then b else a

/-- Modelled from the spec: the lexicographically smallest string of a
list, empty when the list is empty. -/
def minString : List String → String
  | [] => ""
  | s :: ss => ss.foldl strMin s

/-- Modelled from the spec: the lexicographically largest string of a
list, empty when the list is empty. -/
def maxString : List String → String
  | [] => ""
  | s :: ss => ss.foldl strMax s

/-- Modelled from the spec: the Stats snapshot with its observed fields. -/
structure Stats where
  account_email : String
  plan : String
  monthly_request_limit : String
  request_count : Int
  minutes_summarized : Nat
  transcripts_summarized : Nat
  metered_charge : String
  min_created : String
  max_created : String
  deriving DecidableEq

/-- Modelled from the spec: a Summary result object reference. -/
structure Summary where
  summary_id : String
  job_name : String
  summary_type : String
  deriving DecidableEq

/-- Modelled from the spec: one utterance of a transcript, with speaker
label, text and timing. -/
structure TranscriptUtterance where
  speaker : String
  text : String
  start_time : Nat
  end_time : Nat
  deriving DecidableEq

/-- Modelled from the spec: a Transcript — an identifier and an ordered
sequence of utterances. -/
structure Transcript where
  transcript_id : String
  utterances : List TranscriptUtterance
  deriving DecidableEq

/-- Modelled from the spec: the remote account state the documented
operations act on — accepted API tokens, the billing fields reported by
`get_stats`, the creation timestamps of past requests, and the stored
jobs, summaries and transcripts, most recent first. -/
structure ServerState where
  valid_keys : List String
  plan : String
  monthly_request_limit : String
  minutes_summarized : Nat
  transcripts_summarized : Nat
  metered_charge : String
  requests : List DateTime
  jobs : List Job
  summaries : List Summary
  transcripts : List Transcript
  counter : Nat
  deriving DecidableEq

/-- Modelled from the spec: a request is authorized when the client's
API token is one the account accepts. -/
def authorized (c : Client) (srv : ServerState) : Bool :=
  srv.valid_keys.contains c.credentials.api_key

/-- Modelled from the spec: identifiers issued by the server are unique
and non-empty; the server derives them from a counter. -/
def freshId (n : Nat) : String :=
  "job_" ++ toString n

/-- Modelled from the spec: `get_stats()` returns the account-level
snapshot; `request_count` counts past requests and
`min_created`/`max_created` are the earliest and latest request creation
timestamps in UTC ISO-8601 form. -/
def Client.get_stats (c : Client) (srv : ServerState) : Except ApiError Stats :=
  if authorized c srv then
    .ok
      { account_email := c.credentials.email
        plan := srv.plan
        monthly_request_limit := srv.monthly_request_limit
        request_count := (srv.requests.length : Int)
        minutes_summarized := srv.minutes_summarized
        transcripts_summarized := srv.transcripts_summarized
        metered_charge := srv.metered_charge
        min_created := minString (srv.requests.map DateTime.toIso)
        max_created := maxString (srv.requests.map DateTime.toIso) }
  else .error .authFailure

/-- Modelled from the spec: submission of a job of either kind — a fresh
non-empty identifier is issued, the job starts `queued`, and the call
returns the Job handle without blocking until completion. -/
def Client.start_job (c : Client) (srv : ServerState) (kind : JobKind)
    (source : Source) (settings : JobSettings) : Except ApiError (Job × ServerState) :=
  if authorized c srv then
    let j : Job := ⟨freshId srv.counter, .queued, kind⟩
    .ok (j, { srv with jobs := j :: srv.jobs, counter := srv.counter + 1 })
  else .error .authFailure

/-- Modelled from the spec: `start_summary(source, settings)` submits a
summarize-type job. -/
def Client.start_summary (c : Client) (srv : ServerState)
    (source : Source) (settings : JobSettings) : Except ApiError (Job × ServerState) :=
  Client.start_job c srv .summarize source settings

/-- Modelled from the spec: `start_extract(source, settings)` — the same
contract with an extract-type job. -/
def Client.start_extract (c : Client) (srv : ServerState)
    (source : Source) (settings : JobSettings) : Except ApiError (Job × ServerState) :=
  Client.start_job c srv .extract source settings

/-- Modelled from the spec: `list_jobs()` produces the finite ordered
sequence of stored jobs. -/
def Client.list_jobs (c : Client) (srv : ServerState) : Except ApiError (List Job) :=
  if authorized c srv then .ok srv.jobs else .error .authFailure

/-- Modelled from the spec: `list_summaries()`. -/
def Client.list_summaries (c : Client) (srv : ServerState) : Except ApiError (List Summary) :=
  if authorized c srv then .ok srv.summaries else .error .authFailure

/-- Modelled from the spec: `list_transcripts()`. -/
def Client.list_transcripts (c : Client) (srv : ServerState) : Except ApiError (List Transcript) :=
  if authorized c srv then .ok srv.transcripts else .error .authFailure

/-- Modelled from the spec: `retrieve_job(id)` fetches the job by
identifier and fails with NotFound when the identifier is unknown to the
authenticated account. -/
def Client.retrieve_job (c : Client) (srv : ServerState) (id : String) : Except ApiError Job :=
  if authorized c srv then
    match srv.jobs.find? (fun j => j.job_name == id) with
    | some j => .ok j
    | none => .error .notFound
  else .error .authFailure

/-- Modelled from the spec: `retrieve_summary(id)`, NotFound on an
unknown identifier. -/
def Client.retrieve_summary (c : Client) (srv : ServerState) (id : String) :
    Except ApiError Summary :=
  if authorized c srv then
    match srv.summaries.find? (fun s => s.summary_id == id) with
    | some s => .ok s
    | none => .error .notFound
  else .error .authFailure

/-- Modelled from the spec: `retrieve_transcript(id)`, NotFound on an
unknown identifier. -/
def Client.retrieve_transcript (c : Client) (srv : ServerState) (id : String) :
    Except ApiError Transcript :=
  if authorized c srv then
    match srv.transcripts.find? (fun t => t.transcript_id == id) with
    | some t => .ok t
    | none => .error .notFound
  else .error .authFailure

/-- Modelled from the spec: `delete_job(id)` removes the job; repeated
deletion of an already-deleted job is a NotFound error rather than
silent success. -/
def Client.delete_job (c : Client) (srv : ServerState) (id : String) :
    Except ApiError ServerState :=
  if authorized c srv then
    if (srv.jobs.find? (fun j => j.job_name == id)).isSome then
      .ok { srv with jobs := srv.jobs.filter (fun j => j.job_name != id) }
    else .error .notFound
  else .error .authFailure

/-- Modelled from the spec: relabelling of one utterance under a speaker
mapping; labels absent from the mapping are kept. -/
def relabel (mapping : List (String × String)) (ut : TranscriptUtterance) :
    TranscriptUtterance :=
  { ut with speaker := ((mapping.lookup ut.speaker).getD ut.speaker) }

/-- Modelled from the spec: `change_speaker_labels(transcript_id, mapping)`
rewrites the speaker labels of the stored transcript server-side. -/
def Client.change_speaker_labels (c : Client) (srv : ServerState) (tid : String)
    (mapping : List (String × String)) : Except ApiError (Transcript × ServerState) :=
  if authorized c srv then
    match srv.transcripts.find? (fun t => t.transcript_id == tid) with
    | some t =>
      let t' : Transcript := ⟨t.transcript_id, t.utterances.map (relabel mapping)⟩
      .ok (t', { srv with
        transcripts := srv.transcripts.map (fun x => if x.transcript_id == tid then t' else x) })
    | none => .error .notFound
  else .error .authFailure

/-- Modelled from the spec: each simple function constructs a default
Client from the stored credentials, performs the call, and releases the
Client before returning — `get_stats`. -/
def get_stats (env : Credentials) (srv : ServerState) : Except ApiError Stats :=
  Client.get_stats ⟨env⟩ srv

/-- Modelled from the spec: the simple function `start_summary`. -/
def start_summary (env : Credentials) (srv : ServerState)
    (source : Source) (settings : JobSettings) : Except ApiError (Job × ServerState) :=
  Client.start_summary ⟨env⟩ srv source settings

/-- Modelled from the spec: the simple function `start_extract`. -/
def start_extract (env : Credentials) (srv : ServerState)
    (source : Source) (settings : JobSettings) : Except ApiError (Job × ServerState) :=
  Client.start_extract ⟨env⟩ srv source settings

/-- Modelled from the spec: the simple function `list_jobs`. -/
def list_jobs (env : Credentials) (srv : ServerState) : Except ApiError (List Job) :=
  Client.list_jobs ⟨env⟩ srv

/-- Modelled from the spec: the simple function `list_summaries`. -/
def list_summaries (env : Credentials) (srv : ServerState) : Except ApiError (List Summary) :=
  Client.list_summaries ⟨env⟩ srv

/-- Modelled from the spec: the simple function `list_transcripts`. -/
def list_transcripts (env : Credentials) (srv : ServerState) :
    Except ApiError (List Transcript) :=
  Client.list_transcripts ⟨env⟩ srv

/-- Modelled from the spec: the simple function `retrieve_job`. -/
def retrieve_job (env : Credentials) (srv : ServerState) (id : String) :
    Except ApiError Job :=
  Client.retrieve_job ⟨env⟩ srv id

/-- Modelled from the spec: the simple function `retrieve_summary`. -/
def retrieve_summary (env : Credentials) (srv : ServerState) (id : String) :
    Except ApiError Summary :=
  Client.retrieve_summary ⟨env⟩ srv id

/-- Modelled from the spec: the simple function `retrieve_transcript`. -/
def retrieve_transcript (env : Credentials) (srv : ServerState) (id : String) :
    Except ApiError Transcript :=
  Client.retrieve_transcript ⟨env⟩ srv id

/-- Modelled from the spec: the simple function `delete_job`. -/
def delete_job (env : Credentials) (srv : ServerState) (id : String) :
    Except ApiError ServerState :=
  Client.delete_job ⟨env⟩ srv id

/-- Modelled from the spec: the simple function `change_speaker_labels`. -/
def change_speaker_labels (env : Credentials) (srv : ServerState) (tid : String)
    (mapping : List (String × String)) : Except ApiError (Transcript × ServerState) :=
  Client.change_speaker_labels ⟨env⟩ srv tid mapping

/-- A concrete account state used to instantiate the claims. -/
def srvW : ServerState :=
  { valid_keys := ["token_1"]
    plan := "free"
    monthly_request_limit := "1000"
    minutes_summarized := 10
    transcripts_summarized := 147
    metered_charge := "$26.76"
    requests := [⟨2022, 10, 17, 17, 42, 6⟩, ⟨2022, 11, 17, 17, 42, 6⟩]
    jobs := [⟨"job_0", .queued, .summarize⟩]
    summaries := []
    transcripts := []
    counter := 1 }

/-- The client of the concrete account. -/
def clientW : Client :=
  ⟨⟨"thomas@wordcab.com", "token_1"⟩⟩

/-- Settings of a concrete submission, mirroring the usage notebook. -/
def settingsW : JobSettings :=
  ⟨"sample_txt", "no_speaker", [3], ["sample", "text"], "default"⟩

/-- The job the concrete submission on `srvW` returns. -/
def jobW : Job :=
  ⟨"job_1", .queued, .summarize⟩

/-- The account state after the concrete submission. -/
def srvW2 : ServerState :=
  { srvW with jobs := jobW :: srvW.jobs, counter := 2 }

/-- The account state after deleting the stored job `job_0`. -/
def srvDel : ServerState :=
  { srvW with jobs := [] }

/-- The Stats snapshot `get_stats` returns on the concrete account. -/
def statsW : Stats :=
  { account_email := "thomas@wordcab.com"
    plan := "free"
    monthly_request_limit := "1000"
    request_count := 2
    minutes_summarized := 10
    transcripts_summarized := 147
    metered_charge := "$26.76"
    min_created := "2022-10-17T17:42:06Z"
    max_created := "2022-11-17T17:42:06Z" }

end Wordcab

namespace Asr

theorem joinRun_ne_nil (s u : String) (its : List Item) : joinRun s u its ≠ [] := by
  induction its generalizing s u with
  | nil => simp [joinRun]
  | cons it its ih =>
    simp only [joinRun]
    split
    · exact ih _ _
    · simp

theorem speakerMap_isSome_of_mem (d : AsrData) (s : String)
    (h : s ∈ speakerLabels d) : ∃ letter, speakerMap d s = some letter := by
  unfold speakerMap
  rw [List.indexOf?]
  have hsome : ((speakerLabels d).findIdx? (· == s)).isSome := by
    rw [List.findIdx?_isSome, List.any_eq_true]
    exact ⟨s, h, beq_self_eq_true s⟩
  obtain ⟨i, hi⟩ := Option.isSome_iff_exists.mp hsome
  exact ⟨String.mk [Char.ofNat (65 + i)], by rw [hi]; rfl⟩

theorem execItems_open (d : AsrData) (its : List Item) :
    ∀ (s u : String) (out : List String),
    s ∈ speakerLabels d → s ≠ "" →
    (∀ it ∈ its, it.speaker_label ∈ speakerLabels d) →
    (∀ it ∈ its, it.speaker_label ≠ "") →
    execItems d ⟨some s, u, out⟩ its =
      (⟨some (lastRun s u its).1, (lastRun s u its).2,
        out ++ ((joinRun s u its).dropLast.map (runLine d))⟩, none) := by
  induction its with
  | nil =>
    intro s u out _ _ _ _
    simp [execItems, lastRun, joinRun]
  | cons it its ih =>
    intro s u out hs hsne hmem hne
    by_cases hcont : s = it.speaker_label
    · have hstep : stepE d ⟨some s, u, out⟩ it =
          .ok ⟨some s, u ++ " " ++ it.content, out⟩ := by
        simp only [stepE]
        rw [if_neg hsne, if_pos hcont]
      simp only [execItems, hstep]
      rw [ih s (u ++ " " ++ it.content) out hs hsne
            (fun x hx => hmem x (List.mem_cons_of_mem _ hx))
            (fun x hx => hne x (List.mem_cons_of_mem _ hx))]
      simp [lastRun, joinRun, hcont]
    · obtain ⟨letter, hletter⟩ := speakerMap_isSome_of_mem d s hs
      have hstep : stepE d ⟨some s, u, out⟩ it =
          .ok ⟨some it.speaker_label, it.content,
               out ++ ["SPEAKER " ++ letter ++ ": " ++ u]⟩ := by
        simp [stepE, hsne, hcont, hletter]
      simp only [execItems, hstep]
      have hmem' : it.speaker_label ∈ speakerLabels d :=
        hmem it (List.mem_cons_self it its)
      have hne' : it.speaker_label ≠ "" := hne it (List.mem_cons_self it its)
      rw [ih it.speaker_label it.content (out ++ ["SPEAKER " ++ letter ++ ": " ++ u]) hmem' hne'
            (fun x hx => hmem x (List.mem_cons_of_mem _ hx))
            (fun x hx => hne x (List.mem_cons_of_mem _ hx))]
      have hline : runLine d (s, u) = "SPEAKER " ++ letter ++ ": " ++ u := by
        simp [runLine, hletter]
      simp only [lastRun, joinRun, if_neg hcont]
      rw [List.dropLast_cons_of_ne_nil (joinRun_ne_nil _ _ _)]
      simp [hline, List.append_assoc]

/-- C1 (as stated, with an additional well-formedness context): the
script would write one line per maximal speaker run. It fails on the
final run, which is never flushed: the amended statement drops the last
run. The hypotheses make the script run to completion: the assertion
holds, every item label is in the speaker map, and no label is the empty
string (an empty label would re-trigger the `if not speaker` branch and
break the grouping). -/
theorem claim_C1 (d : AsrData)
    (hassert : (speakerLabels d).length = d.n_speakers)
    (hmem : ∀ it ∈ d.items, it.speaker_label ∈ speakerLabels d)
    (hne : ∀ it ∈ d.items, it.speaker_label ≠ "") :
    runReformat d = Except.ok (((speakerRuns d.items).dropLast).map (runLine d)) := by
  unfold runReformat runScript
  rw [if_pos hassert]
  cases hitems : d.items with
  | nil => simp [execItems, speakerRuns]
  | cons it its =>
    rw [hitems] at hmem hne
    have h1 : stepE d ⟨none, "", []⟩ it = .ok ⟨some it.speaker_label, it.content, []⟩ := rfl
    simp only [execItems, h1]
    rw [execItems_open d its it.speaker_label it.content []
          (hmem it (List.mem_cons_self it its)) (hne it (List.mem_cons_self it its))
          (fun x hx => hmem x (List.mem_cons_of_mem _ hx))
          (fun x hx => hne x (List.mem_cons_of_mem _ hx))]
    simp [speakerRuns]

/-- C1 counterexample: on a non-empty one-run input the script writes
nothing, while the claim demands one line for that (maximal, final) run. -/
theorem claim_C1_counterexample :
    cexData.items ≠ [] ∧ runReformat cexData ≠ Except.ok (claimedOutput cexData) := by
  constructor
  · intro h
    exact List.noConfusion h
  · intro h
    have h1 : runReformat cexData = Except.ok [] := rfl
    have h2 : claimedOutput cexData = ["SPEAKER A: Hello"] := rfl
    rw [h1, h2] at h
    exact List.noConfusion (Except.ok.inj h)

/-- C1 witness: the amended claim evaluated on a concrete two-run input. -/
theorem claim_C1_witness :
    runReformat w1Data =
      Except.ok (((speakerRuns w1Data.items).dropLast).map (runLine w1Data)) :=
  claim_C1 w1Data (by decide) (by decide) (by decide)

theorem stepE_error_eq (d : AsrData) (st : RState) (it : Item) (e : String)
    (h : stepE d st it = .error e) : e = "KeyError" := by
  unfold stepE at h
  split at h
  · exact Except.noConfusion h
  · split at h
    · exact Except.noConfusion h
    · split at h
      · exact Except.noConfusion h
      · split at h
        · exact (Except.error.inj h).symm
        · exact Except.noConfusion h

theorem execItems_error_ne_assertion (d : AsrData) (its : List Item) :
    ∀ st : RState, (execItems d st its).2 ≠ some "AssertionError" := by
  induction its with
  | nil =>
    intro st h
    exact Option.noConfusion h
  | cons it its ih =>
    intro st
    cases hstep : stepE d st it with
    | ok st' =>
      simp only [execItems, hstep]
      exact ih st'
    | error e =>
      simp only [execItems, hstep]
      intro h
      have he : e = "KeyError" := stepE_error_eq d st it e hstep
      rw [he] at h
      exact absurd (Option.some.inj h) (by decide)

theorem execItems_no_error (d : AsrData) (its : List Item) :
    ∀ st : RState,
    (∀ s, st.speaker = some s → s ≠ "" → s ∈ speakerLabels d) →
    (∀ it ∈ its, it.speaker_label ∈ speakerLabels d) →
    (execItems d st its).2 = none := by
  induction its with
  | nil =>
    intro st _ _
    rfl
  | cons it its ih =>
    intro st hP hmem
    obtain ⟨sp, u, out⟩ := st
    have hlab : it.speaker_label ∈ speakerLabels d := hmem it (List.mem_cons_self it its)
    have hmem' : ∀ x ∈ its, x.speaker_label ∈ speakerLabels d :=
      fun x hx => hmem x (List.mem_cons_of_mem _ hx)
    have hnext : ∀ s, (some it.speaker_label : Option String) = some s →
        s ≠ "" → s ∈ speakerLabels d := by
      intro s hs _
      injection hs with hs
      rw [← hs]
      exact hlab
    cases sp with
    | none =>
      have h1 : stepE d ⟨none, u, out⟩ it =
          .ok ⟨some it.speaker_label, it.content, out⟩ := rfl
      simp only [execItems, h1]
      exact ih _ hnext hmem'
    | some s0 =>
      have hs0 : s0 ≠ "" → s0 ∈ speakerLabels d := hP s0 rfl
      by_cases h1 : s0 = ""
      · have h2 : stepE d ⟨some s0, u, out⟩ it =
            .ok ⟨some it.speaker_label, it.content, out⟩ := by
          simp only [stepE]
          rw [if_pos h1]
        simp only [execItems, h2]
        exact ih _ hnext hmem'
      · by_cases h2 : s0 = it.speaker_label
        · have h3 : stepE d ⟨some s0, u, out⟩ it =
              .ok ⟨some s0, u ++ " " ++ it.content, out⟩ := by
            simp only [stepE]
            rw [if_neg h1, if_pos h2]
          simp only [execItems, h3]
          refine ih _ ?_ hmem'
          intro s hs hne2
          injection hs with hs
          rw [← hs]
          exact hs0 h1
        · obtain ⟨letter, hletter⟩ := speakerMap_isSome_of_mem d s0 (hs0 h1)
          have h3 : stepE d ⟨some s0, u, out⟩ it =
              .ok ⟨some it.speaker_label, it.content,
                   out ++ ["SPEAKER " ++ letter ++ ": " ++ u]⟩ := by
            simp only [stepE]
            rw [if_neg h1, if_neg h2, hletter]
          simp only [execItems, h3]
          exact ih _ hnext hmem'

/-- C9: the script proceeds past `assert len(speaker_labels) == n_speakers`
exactly when the number of distinct segment labels equals the declared
speaker count, and when moreover every item label occurs among the
segment labels, every `speaker_map` lookup succeeds and the script
completes without raising. -/
theorem claim_C9 (d : AsrData) :
    ((runScript d []).2 ≠ some "AssertionError" ↔
      (speakerLabels d).length = d.n_speakers)
    ∧ ((speakerLabels d).length = d.n_speakers →
        (∀ it ∈ d.items, it.speaker_label ∈ speakerLabels d) →
        (runScript d []).2 = none) := by
  constructor
  · constructor
    · intro h
      by_contra hne
      unfold runScript at h
      rw [if_neg hne] at h
      exact h rfl
    · intro heq
      unfold runScript
      rw [if_pos heq]
      exact execItems_error_ne_assertion d d.items _
  · intro heq hmem
    unfold runScript
    rw [if_pos heq]
    exact execItems_no_error d d.items ⟨none, "", []⟩
      (fun s hs _ => Option.noConfusion hs) hmem

/-- C9 witness: a concrete well-formed input on which the script
completes without raising. -/
theorem claim_C9_witness : (runScript w9Data []).2 = none :=
  (claim_C9 w9Data).2 (by decide) (by decide)

theorem stepE_frame (d : AsrData) (sp : Option String) (u : String)
    (pre o : List String) (it : Item) :
    stepE d ⟨sp, u, pre ++ o⟩ it =
      match stepE d ⟨sp, u, o⟩ it with
      | .ok st => .ok ⟨st.speaker, st.utterance, pre ++ st.output⟩
      | .error e => .error e := by
  cases sp with
  | none => rfl
  | some s =>
    simp only [stepE]
    by_cases h1 : s = ""
    · rw [if_pos h1, if_pos h1]
    · rw [if_neg h1, if_neg h1]
      by_cases h2 : s = it.speaker_label
      · rw [if_pos h2, if_pos h2]
      · rw [if_neg h2, if_neg h2]
        cases speakerMap d s with
        | none => rfl
        | some letter => simp [List.append_assoc]

theorem execItems_frame (d : AsrData) (its : List Item) :
    ∀ (sp : Option String) (u : String) (pre o : List String),
    execItems d ⟨sp, u, pre ++ o⟩ its =
      (⟨(execItems d ⟨sp, u, o⟩ its).1.speaker,
        (execItems d ⟨sp, u, o⟩ its).1.utterance,
        pre ++ (execItems d ⟨sp, u, o⟩ its).1.output⟩,
       (execItems d ⟨sp, u, o⟩ its).2) := by
  induction its with
  | nil =>
    intro sp u pre o
    rfl
  | cons it its ih =>
    intro sp u pre o
    simp only [execItems]
    rw [stepE_frame d sp u pre o it]
    cases hstep : stepE d ⟨sp, u, o⟩ it with
    | ok st =>
      simp only []
      exact ih st.speaker st.utterance pre st.output
    | error e =>
      simp only []

/-- C10: every write opens `results.txt` in append mode, so whatever the
file held before the run is preserved unchanged at its front, the lines
the script writes follow it, and the run's outcome does not depend on the
pre-existing contents. -/
theorem claim_C10 (d : AsrData) (initFile : List String) :
    (runScript d initFile).1.output = initFile ++ (runScript d []).1.output
    ∧ (runScript d initFile).2 = (runScript d []).2 := by
  unfold runScript
  by_cases h : (speakerLabels d).length = d.n_speakers
  · simp only [if_pos h]
    have hframe := execItems_frame d d.items none "" initFile []
    rw [List.append_nil] at hframe
    rw [hframe]
    exact ⟨rfl, rfl⟩
  · simp only [if_neg h]
    simp

end Asr

namespace Wordcab

theorem freshId_ne_empty (n : Nat) : freshId n ≠ "" := by
  intro h
  have hlen := congrArg String.length h
  rw [freshId, String.length_append] at hlen
  have h4 : ("job_").length = 4 := rfl
  have h0 : ("").length = 0 := rfl
  rw [h4, h0] at hlen
  omega

/-- C2: the job lifecycle is the step relation with states queued,
processing, complete and error whose only transitions are queued to
processing, processing to complete, and queued or processing to error;
complete and error are terminal, and no sequence of transitions leaves
complete or error, so a job never regresses from complete back to
processing. -/
theorem claim_C2 :
    (∀ a b : JobStatus, statusStep a b =
      [(JobStatus.queued, JobStatus.processing),
       (JobStatus.processing, JobStatus.complete),
       (JobStatus.queued, JobStatus.error),
       (JobStatus.processing, JobStatus.error)].contains (a, b))
    ∧ (∀ b, statusStep JobStatus.complete b = false)
    ∧ (∀ b, statusStep JobStatus.error b = false)
    ∧ (∀ b, StatusReaches JobStatus.complete b → b = JobStatus.complete)
    ∧ (∀ b, StatusReaches JobStatus.error b → b = JobStatus.error) := by
  refine ⟨by decide, by decide, by decide, ?_, ?_⟩
  · intro b h
    rcases Relation.ReflTransGen.cases_head h with h1 | ⟨c, hc, _⟩
    · exact h1.symm
    · have hfalse : statusStep JobStatus.complete c = false := by cases c <;> rfl
      rw [hfalse] at hc
      exact Bool.noConfusion hc
  · intro b h
    rcases Relation.ReflTransGen.cases_head h with h1 | ⟨c, hc, _⟩
    · exact h1.symm
    · have hfalse : statusStep JobStatus.error c = false := by cases c <;> rfl
      rw [hfalse] at hc
      exact Bool.noConfusion hc

/-- C2 witness: the no-regression part instantiated at the empty
transition sequence from complete. -/
theorem claim_C2_witness : JobStatus.complete = JobStatus.complete :=
  claim_C2.2.2.2.1 JobStatus.complete Relation.ReflTransGen.refl

/-- C3: submitting a job through start_summary or start_extract, for any
Source variant and settings, yields a Job whose identifier is non-empty
and whose status is one of queued, processing, complete, error. -/
theorem claim_C3 (c : Client) (srv : ServerState) (source : Source)
    (settings : JobSettings) (job : Job) (srv' : ServerState)
    (h : Client.start_summary c srv source settings = .ok (job, srv') ∨
         Client.start_extract c srv source settings = .ok (job, srv')) :
    job.job_name ≠ "" ∧
      job.job_status ∈
        [JobStatus.queued, JobStatus.processing, JobStatus.complete, JobStatus.error] := by
  have key : ∀ kind : JobKind,
      Client.start_job c srv kind source settings = .ok (job, srv') →
      job.job_name = freshId srv.counter ∧ job.job_status = JobStatus.queued := by
    intro kind h
    unfold Client.start_job at h
    split at h
    · injection Except.ok.inj h with h1 h2
      rw [← h1]
      exact ⟨rfl, rfl⟩
    · exact Except.noConfusion h
  have hfresh : job.job_name = freshId srv.counter ∧ job.job_status = JobStatus.queued := by
    rcases h with h | h
    · exact key .summarize h
    · exact key .extract h
  obtain ⟨hname, hstatus⟩ := hfresh
  constructor
  · rw [hname]
    exact freshId_ne_empty srv.counter
  · rw [hstatus]
    simp

/-- C3 witness: a concrete submission on the sample account. -/
theorem claim_C3_witness :
    jobW.job_name ≠ "" ∧
      jobW.job_status ∈
        [JobStatus.queued, JobStatus.processing, JobStatus.complete, JobStatus.error] :=
  claim_C3 clientW srvW (Source.generic "./samples/sample_1.txt") settingsW jobW srvW2
    (Or.inl rfl)

/-- C4: retrieving a job by the identifier a submission returned yields
a Job with exactly that identifier (round-trip identity). -/
theorem claim_C4 (c : Client) (srv : ServerState) (source : Source)
    (settings : JobSettings) (job : Job) (srv' : ServerState)
    (h : Client.start_summary c srv source settings = .ok (job, srv') ∨
         Client.start_extract c srv source settings = .ok (job, srv')) :
    ∃ j : Job, Client.retrieve_job c srv' job.job_name = .ok j ∧
      j.job_name = job.job_name := by
  have key : ∀ kind : JobKind,
      Client.start_job c srv kind source settings = .ok (job, srv') →
      ∃ j : Job, Client.retrieve_job c srv' job.job_name = .ok j ∧
        j.job_name = job.job_name := by
    intro kind h
    unfold Client.start_job at h
    by_cases hauth : authorized c srv
    · rw [if_pos hauth] at h
      injection Except.ok.inj h with h1 h2
      subst h1
      subst h2
      have hauth2 : authorized c
          { srv with jobs := (⟨freshId srv.counter, JobStatus.queued, kind⟩ : Job) :: srv.jobs,
                     counter := srv.counter + 1 } = true := hauth
      have hr : Client.retrieve_job c
          { srv with jobs := (⟨freshId srv.counter, JobStatus.queued, kind⟩ : Job) :: srv.jobs,
                     counter := srv.counter + 1 }
          (freshId srv.counter) = .ok ⟨freshId srv.counter, JobStatus.queued, kind⟩ := by
        unfold Client.retrieve_job
        rw [if_pos hauth2]
        have hpa : ((⟨freshId srv.counter, JobStatus.queued, kind⟩ : Job).job_name ==
            freshId srv.counter) = true := beq_self_eq_true _
        simp only [List.find?_cons, hpa]
      exact ⟨⟨freshId srv.counter, JobStatus.queued, kind⟩, hr, rfl⟩
    · rw [if_neg hauth] at h
      exact Except.noConfusion h
  rcases h with h | h
  · exact key .summarize h
  · exact key .extract h

/-- C4 witness: the round trip on the sample account's submission. -/
theorem claim_C4_witness :
    ∃ j : Job, Client.retrieve_job clientW srvW2 jobW.job_name = .ok j ∧
      j.job_name = jobW.job_name :=
  claim_C4 clientW srvW (Source.generic "./samples/sample_1.txt") settingsW jobW srvW2
    (Or.inl rfl)

/-- C5: retrieving an identifier never issued to the authenticated
account fails with NotFound rather than returning a Job. -/
theorem claim_C5 (c : Client) (srv : ServerState) (id : String)
    (hauth : authorized c srv = true)
    (hnever : ∀ j ∈ srv.jobs, j.job_name ≠ id) :
    Client.retrieve_job c srv id = .error .notFound := by
  unfold Client.retrieve_job
  rw [if_pos hauth]
  have hfind : srv.jobs.find? (fun j => j.job_name == id) = none := by
    rw [List.find?_eq_none]
    intro j hj hc
    exact hnever j hj (by simpa using hc)
  rw [hfind]

/-- C5 witness: an identifier the sample account never issued. -/
theorem claim_C5_witness :
    Client.retrieve_job clientW srvW "job_unknown" = .error .notFound :=
  claim_C5 clientW srvW "job_unknown" (by decide) (by decide)

/-- C6: once delete_job succeeds, an immediate retrieve_job on the same
identifier fails with NotFound, and deleting the already-deleted job
again also fails with NotFound rather than silently succeeding. -/
theorem claim_C6 (c : Client) (srv srv' : ServerState) (id : String)
    (h : Client.delete_job c srv id = .ok srv') :
    Client.retrieve_job c srv' id = .error .notFound ∧
      Client.delete_job c srv' id = .error .notFound := by
  unfold Client.delete_job at h
  by_cases hauth : authorized c srv
  · rw [if_pos hauth] at h
    by_cases hfound : (srv.jobs.find? (fun j => j.job_name == id)).isSome
    · rw [if_pos hfound] at h
      have h2 := Except.ok.inj h
      subst h2
      have hauth' : authorized c
          { srv with jobs := srv.jobs.filter (fun j => j.job_name != id) } = true := hauth
      have hfind : (srv.jobs.filter (fun j => j.job_name != id)).find?
          (fun j => j.job_name == id) = none := by
        rw [List.find?_eq_none]
        intro j hj hc
        have hne := (List.mem_filter.mp hj).2
        rw [bne_iff_ne] at hne
        exact hne (by simpa using hc)
      constructor
      · unfold Client.retrieve_job
        rw [if_pos hauth', hfind]
      · unfold Client.delete_job
        rw [if_pos hauth', hfind]
        simp
    · rw [if_neg hfound] at h
      exact Except.noConfusion h
  · rw [if_neg hauth] at h
    exact Except.noConfusion h

/-- C6 witness: deleting the sample account's stored job. -/
theorem claim_C6_witness :
    Client.retrieve_job clientW srvDel "job_0" = .error .notFound ∧
      Client.delete_job clientW srvDel "job_0" = .error .notFound :=
  claim_C6 clientW srvW srvDel "job_0" rfl

theorem charListLe_refl : ∀ as : List Char, charListLe as as = true := by
  intro as
  induction as with
  | nil => rfl
  | cons a as ih =>
    simp only [charListLe]
    rw [if_neg (by omega : ¬ a.toNat < a.toNat),
        if_neg (by omega : ¬ a.toNat < a.toNat)]
    exact ih

theorem charListLe_total : ∀ as bs : List Char,
    charListLe as bs = true ∨ charListLe bs as = true := by
  intro as
  induction as with
  | nil => intro bs; exact Or.inl rfl
  | cons a as ih =>
    intro bs
    cases bs with
    | nil => exact Or.inr rfl
    | cons b bs =>
      simp only [charListLe]
      by_cases hab : a.toNat < b.toNat
      · left
        rw [if_pos hab]
      · by_cases hba : b.toNat < a.toNat
        · right
          rw [if_pos hba]
        · rcases ih bs with h | h
          · left
            rw [if_neg hab, if_neg hba]
            exact h
          · right
            rw [if_neg hba, if_neg hab]
            exact h

theorem charListLe_trans : ∀ as bs cs : List Char, charListLe as bs = true →
    charListLe bs cs = true → charListLe as cs = true := by
  intro as
  induction as with
  | nil => intro bs cs _ _; rfl
  | cons a as ih =>
    intro bs cs h1 h2
    cases bs with
    | nil => exact absurd h1 (by simp [charListLe])
    | cons b bs =>
      cases cs with
      | nil => exact absurd h2 (by simp [charListLe])
      | cons c cs =>
        simp only [charListLe] at h1 h2 ⊢
        by_cases hab : a.toNat < b.toNat
        · by_cases hbc : b.toNat < c.toNat
          · rw [if_pos (by omega : a.toNat < c.toNat)]
          · by_cases hcb : c.toNat < b.toNat
            · rw [if_neg hbc, if_pos hcb] at h2
              exact absurd h2 (by simp)
            · rw [if_pos (by omega : a.toNat < c.toNat)]
        · by_cases hba : b.toNat < a.toNat
          · rw [if_neg hab, if_pos hba] at h1
            exact absurd h1 (by simp)
          · rw [if_neg hab, if_neg hba] at h1
            by_cases hbc : b.toNat < c.toNat
            · rw [if_pos (by omega : a.toNat < c.toNat)]
            · by_cases hcb : c.toNat < b.toNat
              · rw [if_neg hbc, if_pos hcb] at h2
                exact absurd h2 (by simp)
              · rw [if_neg hbc, if_neg hcb] at h2
                rw [if_neg (by omega : ¬ a.toNat < c.toNat),
                    if_neg (by omega : ¬ c.toNat < a.toNat)]
                exact ih bs cs h1 h2

theorem strLe_refl (a : String) : strLe a a = true :=
  charListLe_refl a.data

theorem strLe_total (a b : String) : strLe a b = true ∨ strLe b a = true :=
  charListLe_total a.data b.data

theorem strLe_trans {a b c : String} (h1 : strLe a b = true) (h2 : strLe b c = true) :
    strLe a c = true :=
  charListLe_trans a.data b.data c.data h1 h2

theorem strLe_strMin_left (a b : String) : strLe (strMin a b) a = true := by
  unfold strMin
  by_cases h : strLe a b
  · rw [if_pos h]
    exact strLe_refl a
  · rw [if_neg h]
    rcases strLe_total a b with h1 | h1
    · exact absurd h1 h
    · exact h1

theorem strLe_strMin_right (a b : String) : strLe (strMin a b) b = true := by
  unfold strMin
  by_cases h : strLe a b
  · rw [if_pos h]
    exact h
  · rw [if_neg h]
    exact strLe_refl b

theorem strLe_strMax_left (a b : String) : strLe a (strMax a b) = true := by
  unfold strMax
  by_cases h : strLe a b
  · rw [if_pos h]
    exact h
  · rw [if_neg h]
    exact strLe_refl a

theorem strLe_strMax_right (a b : String) : strLe b (strMax a b) = true := by
  unfold strMax
  by_cases h : strLe a b
  · rw [if_pos h]
    exact strLe_refl b
  · rw [if_neg h]
    rcases strLe_total a b with h1 | h1
    · exact absurd h1 h
    · exact h1

theorem foldl_strMin_mem : ∀ (ss : List String) (s : String),
    ss.foldl strMin s = s ∨ ss.foldl strMin s ∈ ss := by
  intro ss
  induction ss with
  | nil => intro s; exact Or.inl rfl
  | cons x ss ih =>
    intro s
    rw [List.foldl_cons]
    rcases ih (strMin s x) with h | h
    · rw [h]
      unfold strMin
      by_cases hc : strLe s x
      · rw [if_pos hc]
        exact Or.inl rfl
      · rw [if_neg hc]
        exact Or.inr (List.mem_cons_self x ss)
    · exact Or.inr (List.mem_cons_of_mem x h)

theorem foldl_strMin_le : ∀ (ss : List String) (s : String),
    strLe (ss.foldl strMin s) s = true ∧
      ∀ x ∈ ss, strLe (ss.foldl strMin s) x = true := by
  intro ss
  induction ss with
  | nil =>
    intro s
    exact ⟨strLe_refl s, by intro x hx; exact absurd hx (List.not_mem_nil x)⟩
  | cons y ss ih =>
    intro s
    rw [List.foldl_cons]
    obtain ⟨ih1, ih2⟩ := ih (strMin s y)
    refine ⟨strLe_trans ih1 (strLe_strMin_left s y), ?_⟩
    intro x hx
    rcases List.mem_cons.mp hx with hx | hx
    · rw [hx]
      exact strLe_trans ih1 (strLe_strMin_right s y)
    · exact ih2 x hx

theorem foldl_strMax_mem : ∀ (ss : List String) (s : String),
    ss.foldl strMax s = s ∨ ss.foldl strMax s ∈ ss := by
  intro ss
  induction ss with
  | nil => intro s; exact Or.inl rfl
  | cons x ss ih =>
    intro s
    rw [List.foldl_cons]
    rcases ih (strMax s x) with h | h
    · rw [h]
      unfold strMax
      by_cases hc : strLe s x
      · rw [if_pos hc]
        exact Or.inr (List.mem_cons_self x ss)
      · rw [if_neg hc]
        exact Or.inl rfl
    · exact Or.inr (List.mem_cons_of_mem x h)

theorem foldl_strMax_le : ∀ (ss : List String) (s : String),
    strLe s (ss.foldl strMax s) = true ∧
      ∀ x ∈ ss, strLe x (ss.foldl strMax s) = true := by
  intro ss
  induction ss with
  | nil =>
    intro s
    exact ⟨strLe_refl s, by intro x hx; exact absurd hx (List.not_mem_nil x)⟩
  | cons y ss ih =>
    intro s
    rw [List.foldl_cons]
    obtain ⟨ih1, ih2⟩ := ih (strMax s y)
    refine ⟨strLe_trans (strLe_strMax_left s y) ih1, ?_⟩
    intro x hx
    rcases List.mem_cons.mp hx with hx | hx
    · rw [hx]
      exact strLe_trans (strLe_strMax_right s y) ih1
    · exact ih2 x hx

theorem minString_mem (l : List String) (h : l ≠ []) : minString l ∈ l := by
  cases l with
  | nil => exact absurd rfl h
  | cons s ss =>
    show List.foldl strMin s ss ∈ s :: ss
    rcases foldl_strMin_mem ss s with h1 | h1
    · rw [h1]
      exact List.mem_cons_self s ss
    · exact List.mem_cons_of_mem s h1

theorem maxString_mem (l : List String) (h : l ≠ []) : maxString l ∈ l := by
  cases l with
  | nil => exact absurd rfl h
  | cons s ss =>
    show List.foldl strMax s ss ∈ s :: ss
    rcases foldl_strMax_mem ss s with h1 | h1
    · rw [h1]
      exact List.mem_cons_self s ss
    · exact List.mem_cons_of_mem s h1

theorem le_maxString (l : List String) (x : String) (hx : x ∈ l) :
    strLe x (maxString l) = true := by
  cases l with
  | nil => exact absurd hx (List.not_mem_nil x)
  | cons s ss =>
    show strLe x (List.foldl strMax s ss) = true
    rcases List.mem_cons.mp hx with h1 | h1
    · rw [h1]
      exact (foldl_strMax_le ss s).1
    · exact (foldl_strMax_le ss s).2 x h1

theorem minString_le (l : List String) (x : String) (hx : x ∈ l) :
    strLe (minString l) x = true := by
  cases l with
  | nil => exact absurd hx (List.not_mem_nil x)
  | cons s ss =>
    show strLe (List.foldl strMin s ss) x = true
    rcases List.mem_cons.mp hx with h1 | h1
    · rw [h1]
      exact (foldl_strMin_le ss s).1
    · exact (foldl_strMin_le ss s).2 x h1

/-- C7: a successful get_stats yields a Stats whose request_count is a
non-negative integer and whose min_created and max_created are valid UTC
ISO-8601 timestamps with min_created at most max_created (in the
lexicographic order, which on this rendering is chronological order),
provided the account has at least one request and the stored creation
timestamps are valid. -/
theorem claim_C7 (c : Client) (srv : ServerState) (stats : Stats)
    (h : Client.get_stats c srv = .ok stats)
    (hne : srv.requests ≠ [])
    (hvalid : ∀ t ∈ srv.requests, t.valid = true) :
    0 ≤ stats.request_count ∧ IsIso8601UTC stats.min_created ∧
      IsIso8601UTC stats.max_created ∧
      strLe stats.min_created stats.max_created = true := by
  unfold Client.get_stats at h
  by_cases hauth : authorized c srv
  · rw [if_pos hauth] at h
    have h2 := Except.ok.inj h
    subst h2
    have hLne : srv.requests.map DateTime.toIso ≠ [] := by
      intro hcon
      exact hne (List.map_eq_nil_iff.mp hcon)
    have hminmem := minString_mem _ hLne
    have hmaxmem := maxString_mem _ hLne
    obtain ⟨tm, htm, htm2⟩ := List.mem_map.mp hminmem
    obtain ⟨tM, htM, htM2⟩ := List.mem_map.mp hmaxmem
    refine ⟨Int.natCast_nonneg _, ⟨tm, hvalid tm htm, htm2.symm⟩,
      ⟨tM, hvalid tM htM, htM2.symm⟩, le_maxString _ _ hminmem⟩
  · rw [if_neg hauth] at h
    exact Except.noConfusion h

/-- C7 witness: the stats of the sample account. -/
theorem claim_C7_witness :
    0 ≤ statsW.request_count ∧ IsIso8601UTC statsW.min_created ∧
      IsIso8601UTC statsW.max_created ∧
      strLe statsW.min_created statsW.max_created = true :=
  claim_C7 clientW srvW statsW rfl (by decide) (by decide)

/-- C8: for the same credentials and arguments, each simple function
returns exactly what the corresponding Client method returns, success or
error alike; in particular the facade get_stats equals
Client().get_stats(). -/
theorem claim_C8 (env : Credentials) (srv : ServerState) (id tid : String)
    (source : Source) (settings : JobSettings) (mapping : List (String × String)) :
    get_stats env srv = Client.get_stats ⟨env⟩ srv ∧
    start_summary env srv source settings = Client.start_summary ⟨env⟩ srv source settings ∧
    start_extract env srv source settings = Client.start_extract ⟨env⟩ srv source settings ∧
    list_jobs env srv = Client.list_jobs ⟨env⟩ srv ∧
    list_summaries env srv = Client.list_summaries ⟨env⟩ srv ∧
    list_transcripts env srv = Client.list_transcripts ⟨env⟩ srv ∧
    retrieve_job env srv id = Client.retrieve_job ⟨env⟩ srv id ∧
    retrieve_summary env srv id = Client.retrieve_summary ⟨env⟩ srv id ∧
    retrieve_transcript env srv id = Client.retrieve_transcript ⟨env⟩ srv id ∧
    delete_job env srv id = Client.delete_job ⟨env⟩ srv id ∧
    change_speaker_labels env srv tid mapping =
      Client.change_speaker_labels ⟨env⟩ srv tid mapping :=
  ⟨rfl, rfl, rfl, rfl, rfl, rfl, rfl, rfl, rfl, rfl, rfl⟩

end Wordcab
